import Mathlib

/-!
Verification of the uv3dp layer run-length codec and layer-stack exposure
model against its specification.

The codec itself (package ctb, function rleEncodeGraymap and its decoder)
ships only with its unit test in this tree, so the definitions below are
modelled from the specification, with the conformance vectors of
ctb/rle_test.go (which the specification designates as the operational
authority for the token packing) fixing every bit-level choice:

  * pixels are 8-bit intensities, runs are maximal groups of equal
    intensity in row-major order;
  * each run is tokenised as a colour byte (the 7-bit intensity, top bit
    set when a length field follows) followed by a big-endian prefix
    length encoding (1, 2, 3 or 4 bytes with prefixes 0x00, 0x80, 0xc0,
    0xe0), the unique scheme reproducing both conformance streams;
  * the fingerprint is the CRC-64 of the packed stream with the
    reflected ECMA polynomial, initial value and final xor 2^64 - 1
    (Go crc64.ECMA), the unique standard hash matching both conformance
    fingerprints;
  * the weight accumulates, once per run, the run length when the run
    colour is not the background intensity 0.

All machine integers are modelled as Nat with explicit % 256 where the
original narrows to a byte.
-/

/-- Modelled from the spec: the Run Builder of §4.1 (absent from src).
Scans the row-major pixel list and produces maximal (colorValue, length)
runs; built by structural recursion from the right, which yields the same
unique maximal run sequence as the single left-to-right pass. -/
def buildRuns : List Nat → List (Nat × Nat)
  | [] => []
  | p :: ps =>
    match buildRuns ps with
    | [] => [(p, 1)]
    | (c, n) :: rest =>
      if p = c then (c, n + 1) :: rest else (p, 1) :: (c, n) :: rest

/-- Concatenation of the runs back into pixels (used to state that the
run builder loses nothing). -/
def runsPixels : List (Nat × Nat) → List Nat
  | [] => []
  | (p, n) :: rest => List.replicate n p ++ runsPixels rest

/-- Sum of the run lengths of a run sequence. -/
def runsLength : List (Nat × Nat) → Nat
  | [] => 0
  | (_, n) :: rest => n + runsLength rest

/-- Modelled from the spec: the per-run weight accumulator of §4.3
(absent from src): a run adds its length when its colour is not the
background intensity. -/
def runWeight : List (Nat × Nat) → Nat
  | [] => 0
  | (p, n) :: rest => (if p ≠ 0 then n else 0) + runWeight rest

/-- Modelled from the spec: the length-byte emitter of the Token Packer
(§4.2, absent from src).  The multi-byte branches are the big-endian
prefix scheme (0x80, 0xc0, 0xe0) forced by conformance vector 2, where a
run of 508 pixels is packed as the two bytes 0x81 0xfc. -/
def lengthBytes (n : Nat) : List Nat :=
  if n ≤ 0x7f then [n % 256]
  else if n ≤ 0x3fff then
    [((n >>> 8) ||| 0x80) % 256, n % 256]
  else if n ≤ 0x1fffff then
    [((n >>> 16) ||| 0xc0) % 256, (n >>> 8) % 256, n % 256]
  else if n ≤ 0xfffffff then
    [((n >>> 24) ||| 0xe0) % 256, (n >>> 16) % 256, (n >>> 8) % 256, n % 256]
  else []

/-- Modelled from the spec: one token of the Token Packer (§4.2, absent
from src).  `c` is the 7-bit colour (intensity >>> 1).  A run of length 1
is the single colour byte with clear top bit; a longer run sets the top
bit of the colour byte and appends the length bytes.  An empty run emits
nothing. -/
def encodeToken (c n : Nat) : List Nat :=
  if n = 0 then []
  else if n = 1 then [c % 256]
  else ((c ||| 0x80) % 256) :: lengthBytes n

/-- Serialisation of a whole run sequence: each run contributes its token,
with the colour quantised to 7 bits as the conformance vectors require
(a single white 0xff pixel packs as 0x7f). -/
def runsBytes : List (Nat × Nat) → List Nat
  | [] => []
  | (p, n) :: rest => encodeToken (p >>> 1) n ++ runsBytes rest

/-- Reflected ECMA polynomial of CRC-64 (Go crc64.ECMA). -/
def crc64Poly : Nat := 0xc96c5795d7870f42

/-- One bit step of the reflected CRC-64. -/
def crc64Round (h : Nat) : Nat :=
  if h &&& 1 = 1 then (h >>> 1) ^^^ crc64Poly else h >>> 1

/-- Iterated bit steps of the reflected CRC-64. -/
def crc64Rounds : Nat → Nat → Nat
  | 0, h => h
  | k + 1, h => crc64Rounds k (crc64Round h)

/-- One byte step of the reflected CRC-64. -/
def crc64Byte (h b : Nat) : Nat := crc64Rounds 8 (h ^^^ b)

/-- Modelled from the spec: the 64-bit content hash of §4.3 (absent from
src), reconstructed as CRC-64 with the reflected ECMA polynomial and
initial value and final xor 2^64 - 1, the unique standard 64-bit hash
matching both conformance fingerprints of ctb/rle_test.go. -/
def rleHash64 (data : List Nat) : Nat :=
  (data.foldl crc64Byte 0xffffffffffffffff) ^^^ 0xffffffffffffffff

/-- Result of encoding one layer: packed stream, fingerprint, weight
(the triple returned by rleEncodeGraymap). -/
structure EncodedLayer where
  rle : List Nat
  hash : Nat
  bits : Nat
deriving DecidableEq

/-- Modelled from the spec: the encoder entry point `encodeLayer`
(rleEncodeGraymap, absent from src): build the maximal runs, pack them,
hash the packed stream, and accumulate the weight once per run. -/
def rleEncodeGraymap (pix : List Nat) : EncodedLayer :=
  let runs := buildRuns pix
  let rle := runsBytes runs
  { rle := rle, hash := rleHash64 rle, bits := runWeight runs }

/-- Widening of a 7-bit token colour back to an 8-bit intensity: nonzero
colours set the low bit, so that 0x7f maps back to full white 0xff as the
round-trip of conformance vector 1 requires. -/
def expandColor (c : Nat) : Nat :=
  if c = 0 then 0 else ((c <<< 1) ||| 1) % 256

/-- Modelled from the spec: the Token Unpacker (§4.2, absent from src).
Parses the packed stream into (7-bit colour, length) runs; fails on a
stream exhausted mid-run, on an unknown length prefix, or on a run that
declares zero length (§7 MalformedStream). -/
def parseRuns : List Nat → Option (List (Nat × Nat))
  | [] => some []
  | b :: rest =>
    if b &&& 0x80 = 0 then
      Option.map (fun rs => (b, 1) :: rs) (parseRuns rest)
    else
      match rest with
      | [] => none
      | l1 :: r1 =>
        if l1 &&& 0x80 = 0 then
          if l1 = 0 then none
          else Option.map (fun rs => (b &&& 0x7f, l1) :: rs) (parseRuns r1)
        else if l1 &&& 0xc0 = 0x80 then
          match r1 with
          | [] => none
          | b2 :: r2 =>
            let n := ((l1 &&& 0x3f) <<< 8) + b2
            if n = 0 then none
            else Option.map (fun rs => (b &&& 0x7f, n) :: rs) (parseRuns r2)
        else if l1 &&& 0xe0 = 0xc0 then
          match r1 with
          | [] => none
          | b2 :: r2 =>
            match r2 with
            | [] => none
            | b3 :: r3 =>
              let n := ((l1 &&& 0x1f) <<< 16) + (b2 <<< 8) + b3
              if n = 0 then none
              else Option.map (fun rs => (b &&& 0x7f, n) :: rs) (parseRuns r3)
        else if l1 &&& 0xf0 = 0xe0 then
          match r1 with
          | [] => none
          | b2 :: r2 =>
            match r2 with
            | [] => none
            | b3 :: r3 =>
              match r3 with
              | [] => none
              | b4 :: r4 =>
                let n :=
                  ((l1 &&& 0xf) <<< 24) + (b2 <<< 16) + (b3 <<< 8) + b4
                if n = 0 then none
                else
                  Option.map (fun rs => (b &&& 0x7f, n) :: rs) (parseRuns r4)
        else none

/-- Expansion of parsed (7-bit colour, length) runs into pixels. -/
def expandRuns : List (Nat × Nat) → List Nat
  | [] => []
  | (c, n) :: rest => List.replicate n (expandColor c) ++ expandRuns rest

/-- Modelled from the spec: the decoder entry point `decodeLayer` (§6,
absent from src): parse the stream, expand the runs, and fail with a
size mismatch unless exactly width × height pixels were produced. -/
def rleDecodeGraymap (rle : List Nat) (width height : Nat) :
    Option (List Nat) :=
  match parseRuns rle with
  | none => none
  | some rs =>
    let pix := expandRuns rs
    if pix.length = width * height then some pix else none

/-- The 8 × 21 grayscale conformance buffer of ctb/rle_test.go, row-major,
transcribed row by row. -/
def grayPix1 : List Nat :=
  [0xff, 0xff, 0xff, 0xff, 0xff, 0xff, 0xff, 0xff,
   0x00, 0x00, 0x00, 0x00, 0x00, 0x00, 0x00, 0x00,
   0xff, 0xff, 0xff, 0xff, 0xff, 0xff, 0xff, 0xff,
   0xff, 0xff, 0xff, 0xff, 0xff, 0xff, 0xff, 0xff,
   0xff, 0xff, 0xff, 0xff, 0xff, 0xff, 0xff, 0xff,
   0xff, 0xff, 0xff, 0xff, 0xff, 0xff, 0xff, 0xff,
   0xff, 0xff, 0xff, 0xff, 0xff, 0xff, 0xff, 0xff,
   0xff, 0xff, 0xff, 0xff, 0xff, 0xff, 0xff, 0xff,
   0xff, 0xff, 0xff, 0xff, 0xff, 0xff, 0xff, 0xff,
   0xff, 0xff, 0xff, 0xff, 0xff, 0xff, 0xff, 0xff,
   0xff, 0xff, 0xff, 0xff, 0xff, 0xff, 0xff, 0xff,
   0xff, 0xff, 0xff, 0xff, 0xff, 0xff, 0xff, 0xff,
   0xff, 0xff, 0xff, 0xff, 0xff, 0xff, 0xff, 0xff,
   0xff, 0xff, 0xff, 0xff, 0xff, 0xff, 0xff, 0xff,
   0xff, 0xff, 0xff, 0xff, 0xff, 0xff, 0xff, 0xff,
   0xff, 0xff, 0xff, 0xff, 0xff, 0xff, 0xff, 0xff,
   0xff, 0xff, 0xff, 0xff, 0xff, 0xff, 0xff, 0xff,
   0xff, 0xff, 0xff, 0xff, 0xff, 0xff, 0xff, 0xff,
   0xff, 0xff, 0xff, 0xff, 0xff, 0x00, 0x00, 0xff,
   0xff, 0x00, 0xff, 0x00, 0xff, 0x00, 0xff, 0x00,
   0x00, 0x00, 0x00, 0x00, 0x00, 0x00, 0x00, 0x00]

/-- The expected 19-byte packed stream for `grayPix1`. -/
def rleVector1 : List Nat :=
  [0xff, 0x08, 0x80, 0x08, 0xff, 0x80, 0x85, 0x80, 0x02, 0xff, 0x02,
   0x00, 0x7f, 0x00, 0x7f, 0x00, 0x7f, 0x80, 0x09]

/-- The 127 × 4 all-background conformance buffer of ctb/rle_test.go. -/
def grayPix2 : List Nat := List.replicate (127 * 4) 0

/-- The expected 3-byte packed stream for `grayPix2`. -/
def rleVector2 : List Nat := [0x80, 0x81, 0xfc]

/-- The length-byte rule exactly as the specification words it (§4.2):
every byte except the last is the fixed sentinel 0x80 contributing 128,
and the final byte is 0x80 plus the remainder below 128.  Stated only to
be compared against `lengthBytes`, the rule the conformance vectors force. -/
def specLengthBytes (n : Nat) : List Nat :=
  if n ≤ 127 then [n]
  else List.replicate (n / 128) 0x80 ++ [0x80 ||| (n % 128)]

/-- Number of pixels of a buffer whose intensity is not the background 0. -/
def countNonzero : List Nat → Nat
  | [] => 0
  | p :: ps => (if p ≠ 0 then 1 else 0) + countNonzero ps

/-- Exposure record (uv3dp.Exposure): float32 fields modelled as exact
rationals, LightPWM as a Nat. -/
structure Exposure where
  lightOnTime : ℚ
  lightOffTime : ℚ
  lightPWM : Nat
  liftHeight : ℚ
  liftSpeed : ℚ
  retractHeight : ℚ
  retractSpeed : ℚ
deriving DecidableEq

/-- Bottom-layer override record (uv3dp.Bottom): exposure, layer count,
transition-layer count. -/
structure Bottom where
  exposure : Exposure
  count : Nat
  transition : Nat
deriving DecidableEq

/-- Printer and material properties restricted to the fields the
effective-exposure lookup reads. -/
structure Properties where
  exposure : Exposure
  bottom : Bottom
deriving DecidableEq

/-- The default exposure of testProperties in uvj/format_test.go
(16, 2.25, 123, 5.5, 120, 3.3, 200). -/
def testExposure : Exposure := ⟨16, 9/4, 123, 11/2, 120, 33/10, 200⟩

/-- The bottom exposure of testProperties in uvj/format_test.go
(30, 2.25, 255, 5.5, 120, 3.3, 200). -/
def testBottomExposure : Exposure := ⟨30, 9/4, 255, 11/2, 120, 33/10, 200⟩

/-- testProperties of uvj/format_test.go: bottom Count 1, Transition 1. -/
def testProperties : Properties := ⟨testExposure, ⟨testBottomExposure, 1, 1⟩⟩

/-- Modelled from the spec: interpolation between two exposures with
factor num/den, used for bottom-to-normal transition layers.  The timing
and motion fields interpolate linearly; LightPWM is not carried through
interpolation and comes out 0, as the expected uvj JSON of
uvj/format_test.go shows for every layer below Count + Transition. -/
def interpolateExposure (src dst : Exposure) (num den : Nat) : Exposure :=
  { lightOnTime := src.lightOnTime + (dst.lightOnTime - src.lightOnTime) * num / den
    lightOffTime := src.lightOffTime + (dst.lightOffTime - src.lightOffTime) * num / den
    lightPWM := 0
    liftHeight := src.liftHeight + (dst.liftHeight - src.liftHeight) * num / den
    liftSpeed := src.liftSpeed + (dst.liftSpeed - src.liftSpeed) * num / den
    retractHeight := src.retractHeight + (dst.retractHeight - src.retractHeight) * num / den
    retractSpeed := src.retractSpeed + (dst.retractSpeed - src.retractSpeed) * num / den }

/-- Modelled from the spec: the effective per-layer exposure lookup of
§4.4 (uv3dp.Properties.LayerExposure, absent from src), with the
transition ramp that the expected JSON of uvj/format_test.go evidences:
indices at or above Count + Transition get the default exposure; lower
indices interpolate from the bottom exposure toward the default with
factor (i + 1 - Count)/(Transition + 1), which is 0 (pure bottom) for
indices below Count.  Reproduces all four expected layer exposures of the
test (LightOnTime 30, 23, 16, 16). -/
def layerExposure (props : Properties) (i : Nat) : Exposure :=
  let c := props.bottom.count
  let t := props.bottom.transition
  if c + t ≤ i then props.exposure
  else interpolateExposure props.bottom.exposure props.exposure (i + 1 - c) (t + 1)

/-- The effective-exposure rule exactly as the claim words it: bottom
exposure below Count, default exposure otherwise.  Stated only to be
compared against `layerExposure` and the uvj test data. -/
def claimedLayerExposure (props : Properties) (i : Nat) : Exposure :=
  if i < props.bottom.count then props.bottom.exposure else props.exposure

/-- bottomModifier.LayerExposure from cmd/uv3dp/main.go: the bottom
filter command returns its own bottom exposure for indices below its
count and delegates every other index to the wrapped printable. -/
def bottomModifierLayerExposure (bot : Bottom) (base : Nat → Exposure)
    (i : Nat) : Exposure :=
  if i < bot.count then bot.exposure else base i

/-- The per-layer exposures that uvj/format_test.go expects in the
encoded config.json for testProperties (fields absent from the JSON are
zero, in particular LightPWM on layers 0 and 1). -/
def uvjConfigLayerExposure (i : Nat) : Exposure :=
  if i = 0 then ⟨30, 9/4, 0, 11/2, 120, 33/10, 200⟩
  else if i = 1 then ⟨23, 9/4, 0, 11/2, 120, 33/10, 200⟩
  else ⟨16, 9/4, 123, 11/2, 120, 33/10, 200⟩

set_option maxRecDepth 8000

/-- Claim C1: encoding the 8×21 conformance buffer yields exactly the
19-byte stream ff 08 80 08 ff 80 85 80 02 ff 02 00 7f 00 7f 00 7f 80 09
with fingerprint 0x1be2583a56fdcbe9 and weight 146, and encoding the
127×4 all-zero buffer yields exactly the 3-byte stream 80 81 fc with
fingerprint 0x6af46758cc323d17 and weight 0. -/
theorem rleEncodeGraymap_conformance :
    rleEncodeGraymap grayPix1 =
      ⟨rleVector1, 0x1be2583a56fdcbe9, 146⟩ ∧
    rleEncodeGraymap grayPix2 =
      ⟨rleVector2, 0x6af46758cc323d17, 0⟩ := by
  constructor
  · rfl
  · rfl

theorem lor128_lt : ∀ a < 128, a ||| 128 = 128 + a := by decide

theorem lor192_lt : ∀ a < 64, a ||| 192 = 192 + a := by decide

theorem lor224_lt : ∀ a < 32, a ||| 224 = 224 + a := by decide

theorem lorOne_shift : ∀ c < 128, (c <<< 1) ||| 1 = 2 * c + 1 := by decide

theorem and128_byte : ∀ b < 256, b &&& 128 = if 128 ≤ b then 128 else 0 := by
  decide

theorem and127_byte : ∀ b < 256, b &&& 127 = b % 128 := by decide

theorem and192_byte : ∀ b < 256, b &&& 192 = b / 64 * 64 := by decide

theorem and63_byte : ∀ b < 256, b &&& 63 = b % 64 := by decide

theorem and224_byte : ∀ b < 256, b &&& 224 = b / 32 * 32 := by decide

theorem and31_byte : ∀ b < 256, b &&& 31 = b % 32 := by decide

theorem and240_byte : ∀ b < 256, b &&& 240 = b / 16 * 16 := by decide

theorem and15_byte : ∀ b < 256, b &&& 15 = b % 16 := by decide

theorem shiftRight_div (n k : Nat) : n >>> k = n / 2 ^ k :=
  Nat.shiftRight_eq_div_pow n k

theorem shiftLeft_mul (n k : Nat) : n <<< k = n * 2 ^ k :=
  Nat.shiftLeft_eq n k

theorem lengthBytes_one {n : Nat} (h : n ≤ 127) : lengthBytes n = [n] := by
  unfold lengthBytes
  rw [if_pos h, Nat.mod_eq_of_lt (by omega)]

theorem lengthBytes_two {n : Nat} (h1 : 128 ≤ n) (h2 : n ≤ 0x3fff) :
    lengthBytes n = [128 + n / 256, n % 256] := by
  unfold lengthBytes
  rw [if_neg (by omega), if_pos h2, shiftRight_div]
  norm_num
  rw [lor128_lt (n / 256) (by omega), Nat.mod_eq_of_lt (by omega)]

theorem lengthBytes_three {n : Nat} (h1 : 0x3fff < n) (h2 : n ≤ 0x1fffff) :
    lengthBytes n = [192 + n / 65536, n / 256 % 256, n % 256] := by
  unfold lengthBytes
  rw [if_neg (by omega), if_neg (by omega), if_pos h2, shiftRight_div,
    shiftRight_div]
  norm_num
  rw [lor192_lt (n / 65536) (by omega), Nat.mod_eq_of_lt (by omega)]

theorem lengthBytes_four {n : Nat} (h1 : 0x1fffff < n) (h2 : n ≤ 0xfffffff) :
    lengthBytes n =
      [224 + n / 16777216, n / 65536 % 256, n / 256 % 256, n % 256] := by
  unfold lengthBytes
  rw [if_neg (by omega), if_neg (by omega), if_neg (by omega), if_pos h2,
    shiftRight_div, shiftRight_div, shiftRight_div]
  norm_num
  rw [lor224_lt (n / 16777216) (by omega), Nat.mod_eq_of_lt (by omega)]

/-- Claim C3 (counterexample): the 508-pixel run of conformance vector 2
is packed as the two length bytes 0x81 0xfc, whereas the specification's
sentinel rule would emit 0x80 0x80 0x80 0xfc; in the real packing the
non-final byte 0x81 is not the fixed sentinel 0x80, refuting the claim. -/
theorem lengthBytes_not_sentinel_run :
    lengthBytes 508 = [0x81, 0xfc] ∧
    specLengthBytes 508 = [0x80, 0x80, 0x80, 0xfc] ∧
    lengthBytes 508 ≠ specLengthBytes 508 ∧
    ¬ (∀ b ∈ (lengthBytes 508).dropLast, b = 0x80) := by
  refine ⟨by decide, by decide, by decide, by decide⟩

/-- Claim C3 (amended): a run length of at least 128 is emitted
big-endian with a range prefix: lengths up to 0x3fff as two bytes
(0x80 plus the high 6 bits, then the low byte), lengths up to 0x1fffff
as three bytes (prefix 0xc0), and lengths up to 0xfffffff as four bytes
(prefix 0xe0).  Every emitted byte except the final low byte has its top
bit set; only for lengths below 256 does the first byte equal the fixed
sentinel 0x80. -/
theorem lengthBytes_prefix_encoding :
    (∀ n : Nat, 128 ≤ n → n ≤ 0x3fff →
      lengthBytes n = [128 + n / 256, n % 256] ∧ 128 ≤ 128 + n / 256) ∧
    (∀ n : Nat, 0x3fff < n → n ≤ 0x1fffff →
      lengthBytes n = [192 + n / 65536, n / 256 % 256, n % 256]) ∧
    (∀ n : Nat, 0x1fffff < n → n ≤ 0xfffffff →
      lengthBytes n =
        [224 + n / 16777216, n / 65536 % 256, n / 256 % 256, n % 256]) ∧
    (∀ n : Nat, 128 ≤ n → n ≤ 255 → lengthBytes n = [0x80, n]) := by
  refine ⟨fun n h1 h2 => ⟨lengthBytes_two h1 h2, by omega⟩,
    fun n h1 h2 => lengthBytes_three h1 h2,
    fun n h1 h2 => lengthBytes_four h1 h2,
    fun n h1 h2 => ?_⟩
  rw [lengthBytes_two h1 (by omega)]
  have : n / 256 = 0 := by omega
  rw [this, Nat.mod_eq_of_lt (by omega)]

/-- Witness for the amended claim C3 at the conformance length 508. -/
theorem lengthBytes_prefix_encoding_witness :
    lengthBytes 508 = [128 + 508 / 256, 508 % 256] :=
  (lengthBytes_prefix_encoding.1 508 (by decide) (by decide)).1


theorem buildRuns_cons (p : Nat) (ps : List Nat) :
    buildRuns (p :: ps) =
      match buildRuns ps with
      | [] => [(p, 1)]
      | (c, n) :: rest =>
        if p = c then (c, n + 1) :: rest else (p, 1) :: (c, n) :: rest := rfl

theorem runsPixels_buildRuns (pix : List Nat) :
    runsPixels (buildRuns pix) = pix := by
  induction pix with
  | nil => rfl
  | cons p ps ih =>
    cases hb : buildRuns ps with
    | nil =>
      rw [hb] at ih
      simp only [runsPixels] at ih
      subst ih
      rfl
    | cons r rest =>
      obtain ⟨c, n⟩ := r
      rw [hb] at ih
      by_cases hpc : p = c
      · simp only [buildRuns_cons, hb, if_pos hpc]
        simp only [runsPixels, List.replicate] at ih ⊢
        rw [List.cons_append, ih, hpc]
      · simp only [buildRuns_cons, hb, if_neg hpc]
        simp only [runsPixels, List.replicate, List.nil_append,
          List.cons_append] at ih ⊢
        rw [ih]

theorem runsPixels_length (rs : List (Nat × Nat)) :
    (runsPixels rs).length = runsLength rs := by
  induction rs with
  | nil => rfl
  | cons r rest ih =>
    obtain ⟨p, n⟩ := r
    simp only [runsPixels, runsLength, List.length_append,
      List.length_replicate, ih]

theorem runsLength_buildRuns (pix : List Nat) :
    runsLength (buildRuns pix) = pix.length := by
  rw [← runsPixels_length, runsPixels_buildRuns]

theorem buildRuns_mem (pix : List Nat) :
    ∀ r ∈ buildRuns pix, r.1 ∈ pix ∧ 1 ≤ r.2 := by
  induction pix with
  | nil => intro r hr; cases hr
  | cons p ps ih =>
    intro r hr
    cases hb : buildRuns ps with
    | nil =>
      simp only [buildRuns_cons, hb, List.mem_singleton] at hr
      subst hr
      exact ⟨List.mem_cons_self p ps, le_refl 1⟩
    | cons q rest =>
      obtain ⟨c, n⟩ := q
      by_cases hpc : p = c
      · simp only [buildRuns_cons, hb, if_pos hpc] at hr
        rcases List.mem_cons.mp hr with h | h
        · subst h
          have := ih (c, n) (by rw [hb]; exact List.mem_cons_self _ _)
          exact ⟨List.mem_cons_of_mem p this.1, by omega⟩
        · have := ih r (by rw [hb]; exact List.mem_cons_of_mem _ h)
          exact ⟨List.mem_cons_of_mem p this.1, this.2⟩
      · simp only [buildRuns_cons, hb, if_neg hpc] at hr
        rcases List.mem_cons.mp hr with h | h
        · subst h
          exact ⟨List.mem_cons_self p ps, le_refl 1⟩
        · have := ih r (by rw [hb]; exact h)
          exact ⟨List.mem_cons_of_mem p this.1, this.2⟩

theorem chain_head_swap {c n m : Nat} {rest : List (Nat × Nat)}
    (h : List.Chain' (fun a b : Nat × Nat => a.1 ≠ b.1) ((c, n) :: rest)) :
    List.Chain' (fun a b : Nat × Nat => a.1 ≠ b.1) ((c, m) :: rest) := by
  cases rest with
  | nil => exact List.chain'_singleton _
  | cons q l =>
    rw [List.chain'_cons] at h ⊢
    exact ⟨h.1, h.2⟩

theorem buildRuns_chain (pix : List Nat) :
    List.Chain' (fun a b : Nat × Nat => a.1 ≠ b.1) (buildRuns pix) := by
  induction pix with
  | nil => exact List.chain'_nil
  | cons p ps ih =>
    cases hb : buildRuns ps with
    | nil =>
      simp only [buildRuns_cons, hb]
      exact List.chain'_singleton _
    | cons q rest =>
      obtain ⟨c, n⟩ := q
      rw [hb] at ih
      by_cases hpc : p = c
      · simp only [buildRuns_cons, hb, if_pos hpc]
        exact chain_head_swap ih
      · simp only [buildRuns_cons, hb, if_neg hpc]
        rw [List.chain'_cons]
        exact ⟨hpc, ih⟩

/-- Claim C8: for every pixel buffer the run builder produces runs whose
lengths sum to width × height, and no two adjacent runs share a colour
value (maximality). -/
theorem buildRuns_partition_maximal (pix : List Nat) (w h : Nat)
    (hwh : pix.length = w * h) :
    runsLength (buildRuns pix) = w * h ∧
    List.Chain' (fun a b : Nat × Nat => a.1 ≠ b.1) (buildRuns pix) :=
  ⟨by rw [runsLength_buildRuns, hwh], buildRuns_chain pix⟩

/-- Witness for claim C8 at the 8 × 21 conformance buffer. -/
theorem buildRuns_partition_maximal_witness :
    runsLength (buildRuns grayPix1) = 8 * 21 ∧
    List.Chain' (fun a b : Nat × Nat => a.1 ≠ b.1) (buildRuns grayPix1) :=
  buildRuns_partition_maximal grayPix1 8 21 (by decide)

theorem runWeight_buildRuns (pix : List Nat) :
    runWeight (buildRuns pix) = countNonzero pix := by
  induction pix with
  | nil => rfl
  | cons p ps ih =>
    cases hb : buildRuns ps with
    | nil =>
      have hps : ps = [] := by
        have := runsPixels_buildRuns ps
        rw [hb] at this
        exact this.symm
      subst hps
      rfl
    | cons q rest =>
      obtain ⟨c, n⟩ := q
      rw [hb] at ih
      by_cases hpc : p = c
      · simp only [buildRuns_cons, hb, if_pos hpc]
        subst hpc
        simp only [runWeight, countNonzero] at ih ⊢
        by_cases hc : p ≠ 0
        · rw [if_pos hc] at ih ⊢
          rw [if_pos hc]
          omega
        · rw [if_neg hc] at ih ⊢
          rw [if_neg hc]
          omega
      · simp only [buildRuns_cons, hb, if_neg hpc]
        simp only [runWeight, countNonzero] at ih ⊢
        omega

theorem countNonzero_eq_zero (pix : List Nat) :
    countNonzero pix = 0 ↔ ∀ p ∈ pix, p = 0 := by
  induction pix with
  | nil => simp [countNonzero]
  | cons p ps ih =>
    simp only [countNonzero, List.mem_cons]
    constructor
    · intro h
      by_cases hp : p ≠ 0
      · rw [if_pos hp] at h; omega
      · rw [if_neg hp] at h
        push_neg at hp
        intro q hq
        rcases hq with hq | hq
        · exact hq ▸ hp
        · exact ih.mp (by omega) q hq
    · intro h
      rw [if_neg (by push_neg; exact h p (Or.inl rfl))]
      exact Nat.zero_add _ ▸ ih.mpr (fun q hq => h q (Or.inr hq))

/-- Claim C6: the weight returned by the encoder is zero precisely when
every pixel of the buffer has the background intensity 0. -/
theorem rleEncode_weight_zero_iff (pix : List Nat) :
    (rleEncodeGraymap pix).bits = 0 ↔ ∀ p ∈ pix, p = 0 := by
  show runWeight (buildRuns pix) = 0 ↔ _
  rw [runWeight_buildRuns]
  exact countNonzero_eq_zero pix

/-- Claim C7: the weight returned by the encoder equals the number of
pixels with nonzero intensity; in particular 146 on the 8 × 21
conformance buffer and 0 on the all-zero 127 × 4 buffer. -/
theorem rleEncode_weight_counts_nonzero :
    (∀ pix : List Nat, (rleEncodeGraymap pix).bits = countNonzero pix) ∧
    (rleEncodeGraymap grayPix1).bits = 146 ∧
    (rleEncodeGraymap grayPix2).bits = 0 :=
  ⟨fun pix => runWeight_buildRuns pix, by decide, by rfl⟩

/-- Claim C5: a run of length exactly 1 is serialised as the single byte
holding the pixel intensity shifted right by one, with the top bit clear
(there is no escape byte plus companion pair); in conformance vector 1
the six alternating single-pixel runs occupy exactly the six bytes
00 7f 00 7f 00 7f, at offsets 11 to 16 of the 19-byte stream. -/
theorem encodeToken_single_pixel :
    (∀ p : Nat, p < 256 →
      encodeToken (p >>> 1) 1 = [p >>> 1] ∧ p >>> 1 < 128 ∧
      (p >>> 1) &&& 128 = 0) ∧
    List.take 6 (List.drop 11 (rleEncodeGraymap grayPix1).rle) =
      [0x00, 0x7f, 0x00, 0x7f, 0x00, 0x7f] := by
  constructor
  · intro p hp
    have hdiv : p >>> 1 = p / 2 := by
      rw [shiftRight_div]; norm_num
    have hlt : p >>> 1 < 128 := by omega
    refine ⟨?_, hlt, ?_⟩
    · unfold encodeToken
      rw [if_neg (by omega), if_pos rfl, Nat.mod_eq_of_lt (by omega)]
    · rw [and128_byte (p >>> 1) (by omega), if_neg (by omega)]
  · decide

/-- Witness for claim C5 at the white pixel 0xff: its single-pixel token
is the lone byte 0x7f with clear top bit. -/
theorem encodeToken_single_pixel_witness :
    encodeToken (255 >>> 1) 1 = [255 >>> 1] ∧ 255 >>> 1 < 128 ∧
    (255 >>> 1) &&& 128 = 0 :=
  encodeToken_single_pixel.1 255 (by decide)

theorem parseRuns_single (b : Nat) (rest : List Nat) (hb : b &&& 128 = 0) :
    parseRuns (b :: rest) =
      Option.map (fun rs => (b, 1) :: rs) (parseRuns rest) := by
  conv_lhs => rw [parseRuns.eq_def]
  show (if b &&& 0x80 = 0 then _ else _) = _
  rw [if_pos hb]

theorem parseRuns_len1 (b l1 : Nat) (rest : List Nat) (hb : ¬ b &&& 128 = 0)
    (hl : l1 &&& 128 = 0) (hl0 : ¬ l1 = 0) :
    parseRuns (b :: l1 :: rest) =
      Option.map (fun rs => (b &&& 127, l1) :: rs) (parseRuns rest) := by
  conv_lhs => rw [parseRuns.eq_def]
  show (if b &&& 0x80 = 0 then _ else _) = _
  rw [if_neg hb]
  show (if l1 &&& 0x80 = 0 then _ else _) = _
  rw [if_pos hl, if_neg hl0]

theorem parseRuns_len2 (b l1 b2 : Nat) (rest : List Nat)
    (hb : ¬ b &&& 128 = 0) (hl : ¬ l1 &&& 128 = 0) (hl2 : l1 &&& 192 = 128)
    (hn : ¬ ((l1 &&& 63) <<< 8) + b2 = 0) :
    parseRuns (b :: l1 :: b2 :: rest) =
      Option.map (fun rs => (b &&& 127, ((l1 &&& 63) <<< 8) + b2) :: rs)
        (parseRuns rest) := by
  conv_lhs => rw [parseRuns.eq_def]
  show (if b &&& 0x80 = 0 then _ else _) = _
  rw [if_neg hb]
  show (if l1 &&& 0x80 = 0 then _ else _) = _
  rw [if_neg hl, if_pos hl2]
  show (if ((l1 &&& 63) <<< 8) + b2 = 0 then _ else _) = _
  rw [if_neg hn]

theorem parseRuns_len3 (b l1 b2 b3 : Nat) (rest : List Nat)
    (hb : ¬ b &&& 128 = 0) (hl : ¬ l1 &&& 128 = 0)
    (hl2 : ¬ l1 &&& 192 = 128) (hl3 : l1 &&& 224 = 192)
    (hn : ¬ ((l1 &&& 31) <<< 16) + (b2 <<< 8) + b3 = 0) :
    parseRuns (b :: l1 :: b2 :: b3 :: rest) =
      Option.map
        (fun rs => (b &&& 127, ((l1 &&& 31) <<< 16) + (b2 <<< 8) + b3) :: rs)
        (parseRuns rest) := by
  conv_lhs => rw [parseRuns.eq_def]
  show (if b &&& 0x80 = 0 then _ else _) = _
  rw [if_neg hb]
  show (if l1 &&& 0x80 = 0 then _ else _) = _
  rw [if_neg hl, if_neg hl2, if_pos hl3]
  show (if ((l1 &&& 31) <<< 16) + (b2 <<< 8) + b3 = 0 then _ else _) = _
  rw [if_neg hn]

theorem parseRuns_len4 (b l1 b2 b3 b4 : Nat) (rest : List Nat)
    (hb : ¬ b &&& 128 = 0) (hl : ¬ l1 &&& 128 = 0)
    (hl2 : ¬ l1 &&& 192 = 128) (hl3 : ¬ l1 &&& 224 = 192)
    (hl4 : l1 &&& 240 = 224)
    (hn : ¬ ((l1 &&& 15) <<< 24) + (b2 <<< 16) + (b3 <<< 8) + b4 = 0) :
    parseRuns (b :: l1 :: b2 :: b3 :: b4 :: rest) =
      Option.map
        (fun rs =>
          (b &&& 127, ((l1 &&& 15) <<< 24) + (b2 <<< 16) + (b3 <<< 8) + b4)
            :: rs)
        (parseRuns rest) := by
  conv_lhs => rw [parseRuns.eq_def]
  show (if b &&& 0x80 = 0 then _ else _) = _
  rw [if_neg hb]
  show (if l1 &&& 0x80 = 0 then _ else _) = _
  rw [if_neg hl, if_neg hl2, if_neg hl3, if_pos hl4]
  show (if ((l1 &&& 15) <<< 24) + (b2 <<< 16) + (b3 <<< 8) + b4 = 0
      then _ else _) = _
  rw [if_neg hn]

theorem parseRuns_token (c n : Nat) (hc : c < 128) (hn : 1 ≤ n)
    (hmax : n ≤ 0xfffffff) (rest : List Nat) :
    parseRuns (encodeToken c n ++ rest) =
      Option.map (fun rs => (c, n) :: rs) (parseRuns rest) := by
  by_cases h1 : n = 1
  · subst h1
    have hc0 : c &&& 128 = 0 := by
      rw [and128_byte c (by omega), if_neg (by omega)]
    have he : encodeToken c 1 = [c] := by
      unfold encodeToken
      rw [if_neg (by omega), if_pos rfl, Nat.mod_eq_of_lt (by omega)]
    rw [he, List.singleton_append, parseRuns_single c rest hc0]
  · have hmod : (c ||| 128) % 256 = 128 + c := by
      rw [lor128_lt c hc, Nat.mod_eq_of_lt (by omega)]
    have he : encodeToken c n = (128 + c) :: lengthBytes n := by
      unfold encodeToken
      rw [if_neg (by omega), if_neg h1, hmod]
    have hb : ¬ (128 + c) &&& 128 = 0 := by
      rw [and128_byte _ (by omega), if_pos (by omega)]
      omega
    have hb7 : (128 + c) &&& 127 = c := by
      rw [and127_byte _ (by omega)]
      omega
    rw [he]
    by_cases hA : n ≤ 127
    · rw [lengthBytes_one hA, List.cons_append, List.singleton_append]
      have hl : n &&& 128 = 0 := by
        rw [and128_byte n (by omega), if_neg (by omega)]
      rw [parseRuns_len1 _ _ rest hb hl (by omega), hb7]
    · by_cases hB : n ≤ 0x3fff
      · rw [lengthBytes_two (by omega) hB, List.cons_append,
          List.cons_append, List.singleton_append]
        have ha : n / 256 < 64 := by omega
        have hl : ¬ (128 + n / 256) &&& 128 = 0 := by
          rw [and128_byte _ (by omega), if_pos (by omega)]
          omega
        have hl2 : (128 + n / 256) &&& 192 = 128 := by
          rw [and192_byte _ (by omega)]
          omega
        have hrec : ((128 + n / 256) &&& 63) <<< 8 + n % 256 = n := by
          rw [and63_byte _ (by omega), shiftLeft_mul]
          norm_num
          omega
        rw [parseRuns_len2 _ _ _ rest hb hl hl2 (by rw [hrec]; omega), hb7,
          hrec]
      · by_cases hC : n ≤ 0x1fffff
        · rw [lengthBytes_three (by omega) hC, List.cons_append,
            List.cons_append, List.cons_append, List.singleton_append]
          have ha : n / 65536 < 32 := by omega
          have hl : ¬ (192 + n / 65536) &&& 128 = 0 := by
            rw [and128_byte _ (by omega), if_pos (by omega)]
            omega
          have hl2 : ¬ (192 + n / 65536) &&& 192 = 128 := by
            rw [and192_byte _ (by omega)]
            omega
          have hl3 : (192 + n / 65536) &&& 224 = 192 := by
            rw [and224_byte _ (by omega)]
            omega
          have hb7' : (192 + n / 65536) &&& 31 = n / 65536 := by
            rw [and31_byte _ (by omega)]
            omega
          have hrec : ((192 + n / 65536) &&& 31) <<< 16 +
              (n / 256 % 256) <<< 8 + n % 256 = n := by
            rw [hb7', shiftLeft_mul, shiftLeft_mul]
            norm_num
            omega
          rw [parseRuns_len3 _ _ _ _ rest hb hl hl2 hl3
            (by rw [hrec]; omega), hb7, hrec]
        · rw [lengthBytes_four (by omega) hmax, List.cons_append,
            List.cons_append, List.cons_append, List.cons_append,
            List.singleton_append]
          have ha : n / 16777216 < 16 := by omega
          have hl : ¬ (224 + n / 16777216) &&& 128 = 0 := by
            rw [and128_byte _ (by omega), if_pos (by omega)]
            omega
          have hl2 : ¬ (224 + n / 16777216) &&& 192 = 128 := by
            rw [and192_byte _ (by omega)]
            omega
          have hl3 : ¬ (224 + n / 16777216) &&& 224 = 192 := by
            rw [and224_byte _ (by omega)]
            omega
          have hl4 : (224 + n / 16777216) &&& 240 = 224 := by
            rw [and240_byte _ (by omega)]
            omega
          have hb15 : (224 + n / 16777216) &&& 15 = n / 16777216 := by
            rw [and15_byte _ (by omega)]
            omega
          have hrec : ((224 + n / 16777216) &&& 15) <<< 24 +
              (n / 65536 % 256) <<< 16 + (n / 256 % 256) <<< 8 +
              n % 256 = n := by
            rw [hb15, shiftLeft_mul, shiftLeft_mul, shiftLeft_mul]
            norm_num
            omega
          rw [parseRuns_len4 _ _ _ _ _ rest hb hl hl2 hl3 hl4
            (by rw [hrec]; omega), hb7, hrec]

theorem mem_le_runsLength (rs : List (Nat × Nat)) (r : Nat × Nat)
    (hr : r ∈ rs) : r.2 ≤ runsLength rs := by
  induction rs with
  | nil => cases hr
  | cons q rest ih =>
    obtain ⟨p, n⟩ := q
    rcases List.mem_cons.mp hr with h | h
    · subst h
      simp only [runsLength]
      omega
    · have := ih h
      simp only [runsLength]
      omega

theorem parseRuns_runsBytes (rs : List (Nat × Nat))
    (h : ∀ r ∈ rs, r.1 < 256 ∧ 1 ≤ r.2 ∧ r.2 ≤ 0xfffffff) :
    parseRuns (runsBytes rs) =
      some (rs.map (fun r => (r.1 >>> 1, r.2))) := by
  induction rs with
  | nil => rfl
  | cons r rest ih =>
    obtain ⟨p, n⟩ := r
    have hp := h (p, n) (List.mem_cons_self _ _)
    have hc : p >>> 1 < 128 := by
      rw [shiftRight_div]
      norm_num
      omega
    show parseRuns (encodeToken (p >>> 1) n ++ runsBytes rest) = _
    rw [parseRuns_token (p >>> 1) n hc hp.2.1 hp.2.2 (runsBytes rest),
      ih (fun q hq => h q (List.mem_cons_of_mem _ hq))]
    rfl

theorem expandRuns_map (rs : List (Nat × Nat))
    (h : ∀ r ∈ rs, expandColor (r.1 >>> 1) = r.1) :
    expandRuns (rs.map (fun r => (r.1 >>> 1, r.2))) = runsPixels rs := by
  induction rs with
  | nil => rfl
  | cons r rest ih =>
    obtain ⟨p, n⟩ := r
    simp only [List.map_cons, expandRuns, runsPixels]
    rw [h (p, n) (List.mem_cons_self _ _),
      ih (fun q hq => h q (List.mem_cons_of_mem _ hq))]

theorem expandColor_stable :
    ∀ p < 256, (p = 0 ∨ (p % 2 = 1 ∧ 3 ≤ p)) →
      expandColor (p >>> 1) = p := by decide

/-- Claim C2 (counterexample): the round-trip identity does not hold for
every pixel buffer: the colour byte keeps only the high 7 bits of the
intensity, so the 1 × 1 buffer holding the single pixel 0x01 encodes to
the stream 00 and decodes back to the pixel 0x00, not 0x01. -/
theorem rle_roundtrip_not_universal :
    rleDecodeGraymap (rleEncodeGraymap [1]).rle 1 1 = some [0] ∧
    rleDecodeGraymap (rleEncodeGraymap [1]).rle 1 1 ≠ some [1] := by
  refine ⟨by decide, by decide⟩

/-- Claim C2 (amended): decoding the packed stream produced by encoding a
buffer, with the buffer's width and height, reproduces the buffer exactly
for every buffer of at most 0xfffffff pixels whose pixel intensities
survive the 7-bit colour quantisation, i.e. each pixel is either 0 or an
odd intensity at least 3 — in particular every monochrome buffer over
{0x00, 0xff}, such as both conformance buffers. -/
theorem rle_roundtrip_of_stable_pixels (pix : List Nat) (w h : Nat)
    (hwh : pix.length = w * h) (hmax : w * h ≤ 0xfffffff)
    (hpix : ∀ p ∈ pix, p < 256 ∧ (p = 0 ∨ (p % 2 = 1 ∧ 3 ≤ p))) :
    rleDecodeGraymap (rleEncodeGraymap pix).rle w h = some pix := by
  have hrun : ∀ r ∈ buildRuns pix, r.1 < 256 ∧ 1 ≤ r.2 ∧ r.2 ≤ 0xfffffff := by
    intro r hr
    have hm := buildRuns_mem pix r hr
    have hp := hpix r.1 hm.1
    refine ⟨hp.1, hm.2, ?_⟩
    have hle := mem_le_runsLength (buildRuns pix) r hr
    rw [runsLength_buildRuns] at hle
    omega
  have hstable : ∀ r ∈ buildRuns pix, expandColor (r.1 >>> 1) = r.1 := by
    intro r hr
    have hm := buildRuns_mem pix r hr
    have hp := hpix r.1 hm.1
    exact expandColor_stable r.1 hp.1 hp.2
  have hexp : expandRuns ((buildRuns pix).map (fun r => (r.1 >>> 1, r.2))) =
      pix := by
    rw [expandRuns_map _ hstable, runsPixels_buildRuns]
  show rleDecodeGraymap (runsBytes (buildRuns pix)) w h = some pix
  unfold rleDecodeGraymap
  rw [parseRuns_runsBytes _ hrun]
  show (if (expandRuns ((buildRuns pix).map (fun r => (r.1 >>> 1, r.2)))).length
      = w * h then _ else _) = _
  rw [hexp, if_pos hwh]

/-- Witness for the amended claim C2: the 8 × 21 conformance buffer
round-trips exactly. -/
theorem rle_roundtrip_witness :
    rleDecodeGraymap (rleEncodeGraymap grayPix1).rle 8 21 = some grayPix1 :=
  rle_roundtrip_of_stable_pixels grayPix1 8 21 (by decide) (by decide)
    (by decide)

theorem rleDecodeGraymap_eq (rle : List Nat) (w h : Nat) :
    rleDecodeGraymap rle w h =
      match parseRuns rle with
      | none => none
      | some rs =>
        if (expandRuns rs).length = w * h then some (expandRuns rs)
        else none := rfl

/-- Claim C9: the decoder returns a pixel buffer exactly when the decoded
pixel count equals the declared width × height: any returned buffer has
exactly width × height pixels, a parsed stream whose expansion has the
right count is returned in full, a parsed stream whose expansion has the
wrong count yields a size-mismatch failure with no truncated or padded
buffer, and a malformed stream yields a failure. -/
theorem rleDecode_size_check (rle : List Nat) (w h : Nat) :
    (∀ pix, rleDecodeGraymap rle w h = some pix → pix.length = w * h) ∧
    (∀ rs, parseRuns rle = some rs →
      ((expandRuns rs).length = w * h →
        rleDecodeGraymap rle w h = some (expandRuns rs)) ∧
      ((expandRuns rs).length ≠ w * h →
        rleDecodeGraymap rle w h = none)) ∧
    (parseRuns rle = none → rleDecodeGraymap rle w h = none) := by
  refine ⟨?_, ?_, ?_⟩
  · intro pix hpix
    rw [rleDecodeGraymap_eq] at hpix
    cases hp : parseRuns rle with
    | none =>
      rw [hp] at hpix
      exact Option.noConfusion hpix
    | some rs =>
      rw [hp] at hpix
      have hpix2 : (if (expandRuns rs).length = w * h
          then some (expandRuns rs) else none) = some pix := hpix
      by_cases hlen : (expandRuns rs).length = w * h
      · rw [if_pos hlen] at hpix2
        have := Option.some.inj hpix2
        rw [← this]
        exact hlen
      · rw [if_neg hlen] at hpix2
        exact Option.noConfusion hpix2
  · intro rs hp
    constructor
    · intro hlen
      rw [rleDecodeGraymap_eq, hp]
      show (if (expandRuns rs).length = w * h then _ else _) = _
      rw [if_pos hlen]
    · intro hlen
      rw [rleDecodeGraymap_eq, hp]
      show (if (expandRuns rs).length = w * h then _ else _) = _
      rw [if_neg hlen]
  · intro hp
    rw [rleDecodeGraymap_eq, hp]

/-- Witness for claim C9: the one-byte stream 7f with declared size
1 × 1 parses to one single-pixel run and is returned in full. -/
theorem rleDecode_size_check_witness :
    rleDecodeGraymap [0x7f] 1 1 = some (expandRuns [(127, 1)]) :=
  ((rleDecode_size_check [0x7f] 1 1).2.1 [(127, 1)] (by rfl)).1 (by rfl)

/-- Claim C10: the fingerprint is a deterministic pure function of the
packed stream: it is computed as rleHash64 of the stream, so any two
encode runs over byte-identical packed streams (in particular two
encodings of one buffer) produce identical 64-bit fingerprints. -/
theorem fingerprint_function_of_stream (pix1 pix2 : List Nat)
    (hstream : (rleEncodeGraymap pix1).rle = (rleEncodeGraymap pix2).rle) :
    (rleEncodeGraymap pix1).hash = (rleEncodeGraymap pix2).hash ∧
    (rleEncodeGraymap pix1).hash =
      rleHash64 ((rleEncodeGraymap pix1).rle) := by
  constructor
  · show rleHash64 ((rleEncodeGraymap pix1).rle) =
        rleHash64 ((rleEncodeGraymap pix2).rle)
    rw [hstream]
  · rfl

/-- Witness for claim C10 at the all-zero conformance buffer encoded
twice. -/
theorem fingerprint_function_of_stream_witness :
    (rleEncodeGraymap grayPix2).hash = (rleEncodeGraymap grayPix2).hash ∧
    (rleEncodeGraymap grayPix2).hash =
      rleHash64 ((rleEncodeGraymap grayPix2).rle) :=
  fingerprint_function_of_stream grayPix2 grayPix2 rfl

theorem interpolateExposure_zero (src dst : Exposure) (den : Nat) :
    interpolateExposure src dst 0 den = { src with lightPWM := 0 } := by
  unfold interpolateExposure
  norm_num

/-- Claim C4 (counterexample): with the uvj test properties (bottom
Count 1, Transition 1) the claim's two-case rule gives layer 1 the
default exposure (LightOnTime 16), but the expected config.json of
uvj/format_test.go gives layer 1 LightOnTime 23 — a transition layer
interpolated between bottom 30 and default 16; the JSON also gives
layer 0 LightPWM 0 while the bottom record holds 255, so even bottom
indices do not receive Properties.Bottom.Exposure verbatim. -/
theorem layerExposure_claim_counterexample :
    claimedLayerExposure testProperties 1 = testExposure ∧
    uvjConfigLayerExposure 1 ≠ testExposure ∧
    (claimedLayerExposure testProperties 1).lightOnTime = 16 ∧
    (uvjConfigLayerExposure 1).lightOnTime = 23 ∧
    (uvjConfigLayerExposure 0).lightPWM = 0 ∧
    testProperties.bottom.exposure.lightPWM = 255 := by
  refine ⟨rfl, by decide, by norm_num [claimedLayerExposure, testProperties,
    testExposure], by norm_num [uvjConfigLayerExposure], rfl, rfl⟩

/-- Claim C4 (amended): the effective exposure lookup of a decoded stack
returns Properties.Exposure for indices at or above Count + Transition;
indices below Count receive the bottom exposure's timing and motion
settings but with LightPWM dropped to 0, and transition indices receive a
linear interpolation between the bottom and default settings (again with
LightPWM 0) — reproducing exactly the four per-layer exposures of
uvj/format_test.go (LightOnTime 30, 23, 16, 16).  The bottomModifier
filter command of cmd/uv3dp/main.go instead returns its bottom exposure
verbatim (LightPWM included) below its count and delegates other indices
to the wrapped stack, so the two lookups agree from index Count upward
but differ on LightPWM at bottom indices. -/
theorem layerExposure_transition_rule :
    (∀ props : Properties, ∀ i : Nat,
      props.bottom.count + props.bottom.transition ≤ i →
      layerExposure props i = props.exposure) ∧
    (∀ props : Properties, ∀ i : Nat, i < props.bottom.count →
      layerExposure props i = { props.bottom.exposure with lightPWM := 0 }) ∧
    (∀ i : Nat, i < 4 →
      layerExposure testProperties i = uvjConfigLayerExposure i) ∧
    (∀ props : Properties, ∀ i : Nat, props.bottom.count ≤ i →
      bottomModifierLayerExposure props.bottom (layerExposure props) i =
        layerExposure props i) ∧
    (bottomModifierLayerExposure testProperties.bottom
      (layerExposure testProperties) 0).lightPWM = 255 ∧
    (layerExposure testProperties 0).lightPWM = 0 := by
  refine ⟨?_, ?_, ?_, ?_, rfl, rfl⟩
  · intro props i hi
    unfold layerExposure
    rw [if_pos hi]
  · intro props i hi
    unfold layerExposure
    rw [if_neg (by omega)]
    have h0 : i + 1 - props.bottom.count = 0 := by omega
    rw [h0, interpolateExposure_zero]
  · intro i hi
    interval_cases i <;>
      norm_num [layerExposure, interpolateExposure, testProperties,
        testExposure, testBottomExposure, uvjConfigLayerExposure]
  · intro props i hi
    unfold bottomModifierLayerExposure
    rw [if_neg (by omega)]

/-- Witness for the amended claim C4: layer 3 of the test stack gets the
default exposure, and the filtered and decoded lookups agree at layer 2. -/
theorem layerExposure_transition_rule_witness :
    layerExposure testProperties 3 = testProperties.exposure ∧
    bottomModifierLayerExposure testProperties.bottom
      (layerExposure testProperties) 2 = layerExposure testProperties 2 :=
  ⟨layerExposure_transition_rule.1 testProperties 3 (by decide),
   (layerExposure_transition_rule.2.2.2.1) testProperties 2 (by decide)⟩
